import Mathlib

/-!
Verification of the multi-account credential pool of the kiro-gateway
repository (`src/kiro/account_pool.py`) against its natural-language
specification.

The embedding is shallow: the Python classes `AccountInfo` and `AccountPool`
become Lean structures, in-place mutation becomes explicit state passing,
wall-clock time is an explicit `now : Int` parameter (seconds), and the
`random.choice` draw is an explicit `pick : Nat` parameter (the drawn element
is `healthy[pick % len(healthy)]`, so every possible draw is covered by
quantifying over `pick`).

`KiroAuthManager` (the token lifecycle manager, `src/kiro/auth.py`) is not
part of the provided sources; only the fields the pool reads (`_expires_at`,
`auth_type`, the `creds_file` it was constructed from) are modelled.
-/

/-- The fields of `KiroAuthManager` that `account_pool.py` reads.
`expires_at` models `_expires_at` (absent or an absolute time in seconds);
`creds_file` is the constructor argument `KiroAuthManager(creds_file=...)`
and serves as the identity of the manager. -/
structure KiroAuthManager where
  creds_file : String
  expires_at : Option Int
  auth_type : String
deriving Repr, DecidableEq

/-- `AccountInfo.__init__` state: name, auth manager, file path, and the
mutable metric fields with their initial values. -/
structure AccountInfo where
  name : String
  auth_manager : KiroAuthManager
  file_path : String
  request_count : Nat
  last_used : Option Int
  is_healthy : Bool
  last_error : Option String
deriving Repr, DecidableEq

/-- `AccountInfo(name, auth_manager, file_path)`: metrics start at
`request_count = 0`, `last_used = None`, `is_healthy = True`,
`last_error = None`. -/
def mkAccountInfo (name : String) (auth_manager : KiroAuthManager)
    (file_path : String) : AccountInfo :=
  { name := name
    auth_manager := auth_manager
    file_path := file_path
    request_count := 0
    last_used := none
    is_healthy := true
    last_error := none }

/-- `AccountPool.__init__` state: configuration plus the mutable
`accounts` list and round-robin cursor `current_index`. -/
structure AccountPool where
  accounts_dir : String
  strategy : String
  skip_expiring_threshold : Int
  accounts : List AccountInfo
  current_index : Nat
deriving Repr, DecidableEq

/-- `AccountPool(accounts_dir, strategy, skip_expiring_threshold)`:
`accounts = []`, `current_index = 0`. -/
def mkAccountPool (accounts_dir : String) (strategy : String)
    (skip_expiring_threshold : Int) : AccountPool :=
  { accounts_dir := accounts_dir
    strategy := strategy
    skip_expiring_threshold := skip_expiring_threshold
    accounts := []
    current_index := 0 }

/-- `AccountPool._is_account_healthy`: `False` if the account is manually
marked unhealthy; otherwise, if `_expires_at` is set and
`(_expires_at - now).total_seconds() < skip_expiring_threshold`, `False`;
otherwise `True`. -/
def AccountPool.is_account_healthy (pool : AccountPool) (now : Int)
    (account : AccountInfo) : Bool :=
  if !account.is_healthy then
    false
  else
    match account.auth_manager.expires_at with
    | some expiry =>
        let time_until_expiry := expiry - now
        if time_until_expiry < pool.skip_expiring_threshold then false else true
    | none => true

/-- The healthy sub-list `[acc for acc in self.accounts if
self._is_account_healthy(acc)]`, paired with each element's position in
`accounts` (positions stand in for Python object identity, so that the
in-place metric update can be expressed by `List.set`). `i` is the position
of the first element of `l` within the full `accounts` list. -/
def healthyFrom (pool : AccountPool) (now : Int) :
    Nat → List AccountInfo → List (Nat × AccountInfo)
  | _, [] => []
  | i, a :: rest =>
      if pool.is_account_healthy now a then
        (i, a) :: healthyFrom pool now (i + 1) rest
      else
        healthyFrom pool now (i + 1) rest

/-- Message of the `RuntimeError` raised when no account is healthy. -/
def poolExhaustedMsg : String :=
  "No healthy accounts available. All accounts are either expired, invalid, or marked as unhealthy."

/-- `AccountPool.get_next_account`: filter the healthy accounts, raise
(`Except.error`) when none remain, otherwise select per strategy
(`round_robin` uses `current_index % len` then increments the cursor;
`random` draws `healthy[pick % len]`; `least_used` is Python
`min(healthy, key=request_count)`, i.e. the first element attaining the
minimum; any other string falls through to the round-robin branch),
increment the selected record's `request_count`, set its `last_used` to
`now`, and return its auth manager together with the updated pool. On the
error path the pool is returned unchanged. -/
def AccountPool.get_next_account (pool : AccountPool) (now : Int)
    (pick : Nat) : Except String KiroAuthManager × AccountPool :=
  match healthyFrom pool now 0 pool.accounts with
  | [] => (Except.error poolExhaustedMsg, pool)
  | p :: t =>
      let healthy := p :: t
      let sel :=
        if pool.strategy = "round_robin" then
          (healthy.getD (pool.current_index % healthy.length) p,
            pool.current_index + 1)
        else if pool.strategy = "random" then
          (healthy.getD (pick % healthy.length) p, pool.current_index)
        else if pool.strategy = "least_used" then
          (t.foldl
            (fun best q =>
              if q.2.request_count < best.2.request_count then q else best) p,
            pool.current_index)
        else
          (healthy.getD (pool.current_index % healthy.length) p,
            pool.current_index + 1)
      let acc := sel.1.2
      let acc' := { acc with
        request_count := acc.request_count + 1
        last_used := some now }
      (Except.ok acc'.auth_manager,
        { pool with
            accounts := pool.accounts.set sel.1.1 acc'
            current_index := sel.2 })

/-- One entry of the `accounts` list returned by `get_stats`. -/
structure AccountStats where
  name : String
  file_path : String
  request_count : Nat
  is_healthy : Bool
  last_used : Option Int
  auth_type : String
deriving Repr, DecidableEq

/-- The dictionary returned by `AccountPool.get_stats`. -/
structure PoolStats where
  total_accounts : Nat
  healthy_accounts : Nat
  unhealthy_accounts : Nat
  strategy : String
  accounts : List AccountStats
deriving Repr, DecidableEq

/-- `AccountPool.get_stats`: `healthy_count` is recomputed by running the
health predicate over every account at the current time; the snapshot is a
pure function of the pool state and `now` (non-mutation is the absence of a
returned pool). `last_used` keeps the timestamp itself rather than its
`isoformat()` string. -/
def AccountPool.get_stats (pool : AccountPool) (now : Int) : PoolStats :=
  let healthy_count :=
    (pool.accounts.filter (fun acc => pool.is_account_healthy now acc)).length
  { total_accounts := pool.accounts.length
    healthy_accounts := healthy_count
    unhealthy_accounts := pool.accounts.length - healthy_count
    strategy := pool.strategy
    accounts := pool.accounts.map (fun acc =>
      { name := acc.name
        file_path := acc.file_path
        request_count := acc.request_count
        is_healthy := pool.is_account_healthy now acc
        last_used := acc.last_used
        auth_type := acc.auth_manager.auth_type }) }

/-- Whether a filename matches the glob pattern `kiro-*.json` used by
`initialize()`: it begins with the 5 characters of `kiro-` and ends with
the 5 characters of `.json`. Since the prefix and the suffix cannot both
fit in a string shorter than 10 characters without conflicting at the
overlap, this is exactly the glob semantics for a single path component.
(The check is written on the character list, which kernel reduction can
evaluate.) -/
def matchesGlob (fname : String) : Bool :=
  decide (fname.data.take 5 = "kiro-".data) &&
    decide (fname.data.drop (fname.data.length - 5) = ".json".data)

/-- `Path.stem` for the matched files: every match ends in the 5-character
extension `.json`, and `stem` drops it (`kiro-personal.json` becomes
`kiro-personal`). -/
def fileStem (fname : String) : String :=
  String.mk (fname.data.take (fname.data.length - 5))

/-- Lexicographic code-point comparison of character lists: Python string
comparison, which is what `sorted()` applies to the paths of a single
directory (they share the parent, so they compare by filename). -/
def charsLe : List Char → List Char → Bool
  | [], _ => true
  | _ :: _, [] => false
  | c :: a, d :: b =>
      if c.toNat < d.toNat then true
      else if d.toNat < c.toNat then false
      else charsLe a b

/-- Python `<=` on filename strings. -/
def strLe (a b : String) : Bool := charsLe a.data b.data

/-- Insert a filename into an already-sorted list, before the first entry it
compares at most equal to. -/
def insertFile (f : String) : List String → List String
  | [] => [f]
  | g :: rest =>
      if strLe f g then f :: g :: rest else g :: insertFile f rest

/-- `sorted(creds_files)` as an insertion sort by code-point order — a
deterministic sort producing the unique nondecreasing arrangement (the
comparison is total and antisymmetric, so sorting is order-independent,
matching the sole use Python makes of it). -/
def sortFiles : List String → List String
  | [] => []
  | f :: rest => insertFile f (sortFiles rest)

/-- The per-file loading step of `initialize()` as one function: the
`AccountInfo` appended for a file that validates, nothing otherwise. -/
def loadFile (validate : String → Option KiroAuthManager) (f : String) :
    Option AccountInfo :=
  (validate f).map (fun mgr => mkAccountInfo (fileStem f) mgr f)

/-- Message of the `ValueError` raised when `accounts_dir` does not exist. -/
def dirMissingMsg (accounts_dir : String) : String :=
  "Accounts directory does not exist: " ++ accounts_dir

/-- Message of the `ValueError` raised when no file matches the pattern. -/
def noCredsMsg (accounts_dir : String) : String :=
  "No credential files found matching pattern kiro-*.json in directory: "
    ++ accounts_dir

/-- Message of the `ValueError` raised when no account loads. -/
def noValidAccountsMsg : String :=
  "No valid accounts could be loaded"

/-- `AccountPool.initialize`, with the filesystem made explicit:
`dirExists` is `self.accounts_dir.exists()`, `dirFiles` is the directory
listing (in whatever order the filesystem returns it), and `validate f`
models `KiroAuthManager(creds_file=f)` followed by the validating
`await auth_manager.get_access_token()` call — `some mgr` on success,
`none` when that raises (the file is then skipped). Matching files are
sorted, each success appends `AccountInfo(stem, mgr, f)` to the existing
`accounts` list, and the count of this call's loads is returned. (The Python
method name clashes with a reserved Lean token, hence `initAccounts`.) -/
def AccountPool.initAccounts (pool : AccountPool) (dirExists : Bool)
    (dirFiles : List String) (validate : String → Option KiroAuthManager) :
    Except String (Nat × AccountPool) :=
  if !dirExists then
    Except.error (dirMissingMsg pool.accounts_dir)
  else
    let creds_files := dirFiles.filter matchesGlob
    if creds_files.isEmpty then
      Except.error (noCredsMsg pool.accounts_dir)
    else
      let loaded := (sortFiles creds_files).filterMap (fun f =>
        (validate f).map (fun mgr => mkAccountInfo (fileStem f) mgr f))
      if loaded.length = 0 then
        Except.error noValidAccountsMsg
      else
        Except.ok (loaded.length,
          { pool with accounts := pool.accounts ++ loaded })


/-- Iterate `get_next_account` at one fixed time, collecting the results in
order (the draw parameter is irrelevant for the deterministic strategies
exercised by the concrete scenarios, so it is fixed to 0). -/
def runSelections (pool : AccountPool) (now : Int) :
    Nat → List (Except String KiroAuthManager) × AccountPool
  | 0 => ([], pool)
  | n + 1 =>
      let r := pool.get_next_account now 0
      let rest := runSelections r.2 now n
      (r.1 :: rest.1, rest.2)

/-- Modelled from the spec: the per-account single-flight refresh
coordination of the TokenLifecycleManager (`src/kiro/auth.py`, not among
the provided sources). A caller that finds no valid cached token either
joins the outstanding refresh as a waiter or, when none is outstanding,
becomes the one caller that issues a refresh call. `R` is the refresh
outcome (success or failure alike). -/
inductive CallerSt (R : Type) where
  | idle
  | waiting
  | done (r : R)
deriving Repr, DecidableEq

/-- Modelled from the spec: state of one account's refresh guard.
`refresh_calls` counts refresh calls issued against the backend token
endpoint; `callers c` is the progress of caller `c`. -/
structure SFState (R : Type) where
  inflight : Bool
  refresh_calls : Nat
  callers : List (CallerSt R)
deriving Repr, DecidableEq

/-- Modelled from the spec: events of the single-flight protocol. `arrive c`
is caller `c` invoking `getAccessToken()` while the cached token is absent
or expiring; `complete r` is the outstanding refresh finishing with
outcome `r`. -/
inductive SFEvent (R : Type) where
  | arrive (c : Nat)
  | complete (r : R)
deriving Repr

/-- Modelled from the spec: one step of the single-flight protocol. An
arriving caller awaits the in-flight refresh if one exists, otherwise it
issues the single refresh call and awaits it itself; a completing refresh
delivers its outcome to every waiting caller. Invalid events (a caller
arriving twice, completion with nothing in flight) yield `none`. -/
def sfStep {R : Type} (s : SFState R) : SFEvent R → Option (SFState R)
  | SFEvent.arrive c =>
      match s.callers[c]? with
      | some CallerSt.idle =>
          if s.inflight then
            some { s with callers := s.callers.set c CallerSt.waiting }
          else
            some { s with
              inflight := true
              refresh_calls := s.refresh_calls + 1
              callers := s.callers.set c CallerSt.waiting }
      | _ => none
  | SFEvent.complete r =>
      if s.inflight then
        some { inflight := false
               refresh_calls := s.refresh_calls
               callers := s.callers.map (fun st =>
                 match st with
                 | CallerSt.waiting => CallerSt.done r
                 | st => st) }
      else none

/-- Run a sequence of single-flight events from a state. -/
def sfRun {R : Type} (s : SFState R) : List (SFEvent R) → Option (SFState R)
  | [] => some s
  | e :: es =>
      match sfStep s e with
      | some s' => sfRun s' es
      | none => none

/-- Initial single-flight state for `K` callers: no refresh outstanding,
no refresh call issued yet, every caller still to arrive. -/
def sfInit (R : Type) (K : Nat) : SFState R :=
  { inflight := false
    refresh_calls := 0
    callers := List.replicate K CallerSt.idle }

/-- Canonical single-flight state of `K` callers after exactly the callers
in `arrived` have invoked `getAccessToken()` and the refresh has not yet
completed: a refresh is in flight as soon as anyone arrived, exactly one
refresh call has been issued in total, the arrived callers are waiting and
the others are still to arrive. -/
def sfDesc (R : Type) (K : Nat) (arrived : List Nat) : SFState R :=
  { inflight := !arrived.isEmpty
    refresh_calls := if arrived.isEmpty then 0 else 1
    callers := (List.range K).map (fun c =>
      if c ∈ arrived then CallerSt.waiting else CallerSt.idle) }

/-- Python `min(healthy, key=lambda a: a.request_count)` restricted to a
head `b` and tail `t`: fold keeping the current best, replacing it only on a
strictly smaller request count (so the first minimum wins). This is exactly
the fold in the `least_used` branch of `get_next_account`. -/
def luFold (t : List (Nat × AccountInfo)) (b : Nat × AccountInfo) :
    Nat × AccountInfo :=
  t.foldl
    (fun best q =>
      if q.2.request_count < best.2.request_count then q else best) b

/-- Fixture: an auth manager with no recorded expiry, identified by its
credentials file. -/
def mkMgr (creds_file : String) : KiroAuthManager :=
  { creds_file := creds_file
    expires_at := none
    auth_type := "json-file" }

/-- Fixture: the three-account pool of the round-robin scenario (all
accounts healthy: manual flag set, no recorded expiry), in discovery
order `account1, account2, account3`. -/
def pool3 : AccountPool :=
  { accounts_dir := "accounts"
    strategy := "round_robin"
    skip_expiring_threshold := 300
    accounts :=
      [mkAccountInfo "kiro-account1" (mkMgr "kiro-account1.json")
        "kiro-account1.json",
       mkAccountInfo "kiro-account2" (mkMgr "kiro-account2.json")
        "kiro-account2.json",
       mkAccountInfo "kiro-account3" (mkMgr "kiro-account3.json")
        "kiro-account3.json"]
    current_index := 0 }

/-- Fixture: an empty pool, as produced by the constructor. -/
def poolEmpty : AccountPool := mkAccountPool "accounts" "round_robin" 300

/-- Fixture: a single-account pool for closed selection instances. -/
def pool1 : AccountPool :=
  { accounts_dir := "accounts"
    strategy := "round_robin"
    skip_expiring_threshold := 300
    accounts :=
      [mkAccountInfo "kiro-solo" (mkMgr "kiro-solo.json") "kiro-solo.json"]
    current_index := 0 }

/-- Fixture: the least-used scenario — account A (discovered first) has
`request_count = 5`, account B has `request_count = 2`, both healthy. -/
def poolLU : AccountPool :=
  { accounts_dir := "accounts"
    strategy := "least_used"
    skip_expiring_threshold := 300
    accounts :=
      [{ mkAccountInfo "kiro-acctA" (mkMgr "kiro-acctA.json")
          "kiro-acctA.json" with request_count := 5 },
       { mkAccountInfo "kiro-acctB" (mkMgr "kiro-acctB.json")
          "kiro-acctB.json" with request_count := 2 }]
    current_index := 0 }

theorem healthyFrom_mem (pool : AccountPool) (now : Int) :
    ∀ (l : List AccountInfo) (i : Nat) (q : Nat × AccountInfo),
      q ∈ healthyFrom pool now i l →
      ∃ k, q.1 = i + k ∧ l[k]? = some q.2 ∧
        pool.is_account_healthy now q.2 = true := by
  intro l
  induction l with
  | nil => intro i q h; simp [healthyFrom] at h
  | cons a rest ih =>
      intro i q h
      by_cases ha : pool.is_account_healthy now a
      · simp only [healthyFrom, if_pos ha, List.mem_cons] at h
        rcases h with h1 | h2
        · refine ⟨0, ?_, ?_, ?_⟩ <;> simp [h1, ha]
        · obtain ⟨k, hk, hl, hh⟩ := ih (i + 1) q h2
          exact ⟨k + 1, by omega, by simpa using hl, hh⟩
      · simp only [healthyFrom, if_neg ha] at h
        obtain ⟨k, hk, hl, hh⟩ := ih (i + 1) q h
        exact ⟨k + 1, by omega, by simpa using hl, hh⟩

theorem healthyFrom_nil_iff (pool : AccountPool) (now : Int) :
    ∀ (l : List AccountInfo) (i : Nat),
      healthyFrom pool now i l = [] ↔
        ∀ a ∈ l, pool.is_account_healthy now a = false := by
  intro l
  induction l with
  | nil => intro i; simp [healthyFrom]
  | cons a rest ih =>
      intro i
      by_cases ha : pool.is_account_healthy now a
      · simp [healthyFrom, if_pos ha, ha]
      · simp only [healthyFrom, if_neg ha]
        rw [ih (i + 1)]
        constructor
        · intro h b hb
          rcases List.mem_cons.mp hb with h1 | h2
          · subst h1; simpa using ha
          · exact h b h2
        · intro h b hb
          exact h b (List.mem_cons_of_mem a hb)

theorem healthyFrom_map_snd (pool : AccountPool) (now : Int) :
    ∀ (l : List AccountInfo) (i : Nat),
      (healthyFrom pool now i l).map Prod.snd =
        l.filter (fun a => pool.is_account_healthy now a) := by
  intro l
  induction l with
  | nil => intro i; simp [healthyFrom]
  | cons a rest ih =>
      intro i
      by_cases ha : pool.is_account_healthy now a
      · simp [healthyFrom, if_pos ha, ha, ih (i + 1)]
      · simp [healthyFrom, if_neg ha, ha, ih (i + 1)]

theorem healthyFrom_pairwise (pool : AccountPool) (now : Int) :
    ∀ (l : List AccountInfo) (i : Nat),
      List.Pairwise (fun x y => x.1 < y.1) (healthyFrom pool now i l) := by
  intro l
  induction l with
  | nil => intro i; simp [healthyFrom]
  | cons a rest ih =>
      intro i
      by_cases ha : pool.is_account_healthy now a
      · simp only [healthyFrom, if_pos ha]
        refine List.pairwise_cons.mpr ⟨?_, ih (i + 1)⟩
        intro q hq
        obtain ⟨k, hk, -, -⟩ := healthyFrom_mem pool now rest (i + 1) q hq
        simp only
        omega
      · simp only [healthyFrom, if_neg ha]
        exact ih (i + 1)

theorem getD_mem {α : Type} (l : List α) (n : Nat) (d : α) (hd : d ∈ l) :
    l.getD n d ∈ l := by
  rw [List.getD_eq_getElem?_getD]
  rcases Nat.lt_or_ge n l.length with h | h
  · rw [List.getElem?_eq_getElem h]
    simp
  · rw [List.getElem?_eq_none h]
    simpa using hd

theorem luFold_spec :
    ∀ (t : List (Nat × AccountInfo)) (b : Nat × AccountInfo),
      (luFold t b = b ∨
        (luFold t b ∈ t ∧
          (luFold t b).2.request_count < b.2.request_count)) ∧
      (luFold t b).2.request_count ≤ b.2.request_count ∧
      ∀ r ∈ t, (luFold t b).2.request_count ≤ r.2.request_count := by
  intro t
  induction t with
  | nil => intro b; simp [luFold]
  | cons q t' ih =>
      intro b
      by_cases hq : q.2.request_count < b.2.request_count
      · have hfold : luFold (q :: t') b = luFold t' q := by
          simp [luFold, List.foldl_cons, if_pos hq]
        obtain ⟨hmem, hle, hall⟩ := ih q
        rw [hfold]
        refine ⟨?_, by omega, ?_⟩
        · rcases hmem with h | ⟨h1, h2⟩
          · exact Or.inr ⟨by simp [h], by omega⟩
          · exact Or.inr ⟨List.mem_cons_of_mem q h1, by omega⟩
        · intro r hr
          rcases List.mem_cons.mp hr with h1 | h2
          · subst h1; omega
          · exact hall r h2
      · have hfold : luFold (q :: t') b = luFold t' b := by
          simp [luFold, List.foldl_cons, if_neg hq]
        obtain ⟨hmem, hle, hall⟩ := ih b
        rw [hfold]
        refine ⟨?_, hle, ?_⟩
        · rcases hmem with h | ⟨h1, h2⟩
          · exact Or.inl h
          · exact Or.inr ⟨List.mem_cons_of_mem q h1, h2⟩
        · intro r hr
          rcases List.mem_cons.mp hr with h1 | h2
          · subst h1; omega
          · exact hall r h2

theorem luFold_mem (t : List (Nat × AccountInfo)) (b : Nat × AccountInfo) :
    luFold t b ∈ b :: t := by
  rcases (luFold_spec t b).1 with h | ⟨h, -⟩
  · simp [h]
  · exact List.mem_cons_of_mem b h

theorem luFold_first :
    ∀ (t : List (Nat × AccountInfo)) (b : Nat × AccountInfo),
      List.Pairwise (fun x y => x.1 < y.1) (b :: t) →
      ∀ r ∈ b :: t,
        r.2.request_count = (luFold t b).2.request_count →
        (luFold t b).1 ≤ r.1 := by
  intro t
  induction t with
  | nil =>
      intro b _ r hr hcount
      rcases List.mem_cons.mp hr with h1 | h2
      · subst h1; simp [luFold]
      · simp at h2
  | cons q t' ih =>
      intro b hpw r hr hcount
      have hbq : b.1 < q.1 := (List.pairwise_cons.mp hpw).1 q (by simp)
      have hpw' : List.Pairwise (fun x y => x.1 < y.1) (q :: t') :=
        (List.pairwise_cons.mp hpw).2
      by_cases hq : q.2.request_count < b.2.request_count
      · have hfold : luFold (q :: t') b = luFold t' q := by
          simp [luFold, List.foldl_cons, if_pos hq]
        rw [hfold] at hcount ⊢
        rcases List.mem_cons.mp hr with h1 | h2
        · -- r = b is impossible: the fold result's count is at most q's,
          -- strictly below b's
          exfalso
          have := (luFold_spec t' q).2.1
          subst h1
          omega
        · exact ih q hpw' r h2 hcount
      · have hfold : luFold (q :: t') b = luFold t' b := by
          simp [luFold, List.foldl_cons, if_neg hq]
        have hpwbt : List.Pairwise (fun x y => x.1 < y.1) (b :: t') := by
          refine List.pairwise_cons.mpr ⟨?_, (List.pairwise_cons.mp hpw').2⟩
          intro x hx
          exact (List.pairwise_cons.mp hpw).1 x (List.mem_cons_of_mem q hx)
        rw [hfold] at hcount ⊢
        rcases List.mem_cons.mp hr with h1 | h2
        · exact ih b hpwbt r (by simp [h1]) hcount
        · rcases List.mem_cons.mp h2 with h3 | h4
          · -- r = q: the min count is at most b's count which is at most
            -- q's; equality forces the fold to have kept b itself
            subst h3
            have hle := (luFold_spec t' b).2.1
            have hcases := (luFold_spec t' b).1
            rcases hcases with h | ⟨-, hlt⟩
            · rw [h]; omega
            · omega
          · exact ih b hpwbt r (List.mem_cons_of_mem b h4) hcount

theorem gna_empty (pool : AccountPool) (now : Int) (pick : Nat)
    (hpt : healthyFrom pool now 0 pool.accounts = []) :
    pool.get_next_account now pick = (Except.error poolExhaustedMsg, pool) := by
  unfold AccountPool.get_next_account
  rw [hpt]

theorem gna_rr (pool : AccountPool) (now : Int) (pick : Nat)
    (p q : Nat × AccountInfo) (t : List (Nat × AccountInfo))
    (hpt : healthyFrom pool now 0 pool.accounts = p :: t)
    (hs : pool.strategy = "round_robin")
    (hq : q = (p :: t).getD (pool.current_index % (p :: t).length) p) :
    pool.get_next_account now pick =
      (Except.ok q.2.auth_manager,
       { pool with
           accounts := pool.accounts.set q.1
             { q.2 with
                 request_count := q.2.request_count + 1
                 last_used := some now }
           current_index := pool.current_index + 1 }) := by
  unfold AccountPool.get_next_account
  rw [hpt]
  simp [hs, hq]

theorem gna_random (pool : AccountPool) (now : Int) (pick : Nat)
    (p q : Nat × AccountInfo) (t : List (Nat × AccountInfo))
    (hpt : healthyFrom pool now 0 pool.accounts = p :: t)
    (hs : pool.strategy = "random")
    (hq : q = (p :: t).getD (pick % (p :: t).length) p) :
    pool.get_next_account now pick =
      (Except.ok q.2.auth_manager,
       { pool with
           accounts := pool.accounts.set q.1
             { q.2 with
                 request_count := q.2.request_count + 1
                 last_used := some now }
           current_index := pool.current_index }) := by
  unfold AccountPool.get_next_account
  rw [hpt]
  simp [hs, hq]

theorem gna_lu (pool : AccountPool) (now : Int) (pick : Nat)
    (p q : Nat × AccountInfo) (t : List (Nat × AccountInfo))
    (hpt : healthyFrom pool now 0 pool.accounts = p :: t)
    (hs : pool.strategy = "least_used")
    (hq : q = luFold t p) :
    pool.get_next_account now pick =
      (Except.ok q.2.auth_manager,
       { pool with
           accounts := pool.accounts.set q.1
             { q.2 with
                 request_count := q.2.request_count + 1
                 last_used := some now }
           current_index := pool.current_index }) := by
  unfold AccountPool.get_next_account
  rw [hpt]
  simp [hs, hq, luFold]

theorem gna_fb (pool : AccountPool) (now : Int) (pick : Nat)
    (p q : Nat × AccountInfo) (t : List (Nat × AccountInfo))
    (hpt : healthyFrom pool now 0 pool.accounts = p :: t)
    (h1 : pool.strategy ≠ "round_robin")
    (h2 : pool.strategy ≠ "random")
    (h3 : pool.strategy ≠ "least_used")
    (hq : q = (p :: t).getD (pool.current_index % (p :: t).length) p) :
    pool.get_next_account now pick =
      (Except.ok q.2.auth_manager,
       { pool with
           accounts := pool.accounts.set q.1
             { q.2 with
                 request_count := q.2.request_count + 1
                 last_used := some now }
           current_index := pool.current_index + 1 }) := by
  unfold AccountPool.get_next_account
  rw [hpt]
  simp [h1, h2, h3, hq]

/-- C3: `_is_account_healthy` returns `True` exactly when the manual flag is
set and the recorded expiry is absent or at least `skip_expiring_threshold`
seconds away; an account whose token expires strictly within the threshold
(though still in the future) is unhealthy, and an account with no recorded
expiry is healthy whenever its manual flag is set. -/
theorem c3_health_predicate (pool : AccountPool) (now : Int)
    (acc : AccountInfo) :
    (pool.is_account_healthy now acc = true ↔
      acc.is_healthy = true ∧
        (acc.auth_manager.expires_at = none ∨
          ∃ e, acc.auth_manager.expires_at = some e ∧
            pool.skip_expiring_threshold ≤ e - now)) ∧
    (∀ e, acc.auth_manager.expires_at = some e → now < e →
      e - now < pool.skip_expiring_threshold →
      pool.is_account_healthy now acc = false) ∧
    (acc.auth_manager.expires_at = none → acc.is_healthy = true →
      pool.is_account_healthy now acc = true) := by
  refine ⟨?_, ?_, ?_⟩
  · unfold AccountPool.is_account_healthy
    cases hih : acc.is_healthy with
    | false => simp [hih]
    | true =>
        cases hexp : acc.auth_manager.expires_at with
        | none => simp [hexp]
        | some e =>
            simp only [Bool.not_true, Bool.false_eq_true, if_false, hexp,
              true_and, reduceCtorEq, false_or]
            constructor
            · intro h
              split at h
              · simp at h
              · exact ⟨e, rfl, by omega⟩
            · rintro ⟨e', he', hle⟩
              obtain rfl : e = e' := by
                simpa using he'
              split
              · omega
              · rfl
  · intro e he hfut hlt
    unfold AccountPool.is_account_healthy
    cases hih : acc.is_healthy with
    | false => simp
    | true => simp [he, hlt]
  · intro he hih
    unfold AccountPool.is_account_healthy
    simp [he, hih]

/-- Closed instance of C3: an account expiring 100 seconds in the future is
unhealthy against a 300-second threshold even though the token is still
valid. -/
theorem c3_health_predicate_witness :
    (mkAccountPool "d" "round_robin" 300).is_account_healthy 0
      (mkAccountInfo "a"
        { creds_file := "kiro-a.json", expires_at := some 100,
          auth_type := "json-file" } "kiro-a.json") = false :=
  (c3_health_predicate (mkAccountPool "d" "round_robin" 300) 0
      (mkAccountInfo "a"
        { creds_file := "kiro-a.json", expires_at := some 100,
          auth_type := "json-file" } "kiro-a.json")).2.1
    100 rfl (by decide) (by decide)

/-- C8: `get_stats` is a pure snapshot — the per-account `request_count`
and `last_used` it reports do not depend on the time of the call, every
snapshot satisfies `healthy + unhealthy = total`, and the healthy count is
recomputed from the health predicate at the current time rather than
cached. -/
theorem c8_get_stats_snapshot (pool : AccountPool) (now now₂ : Int) :
    ((pool.get_stats now).accounts.map
        (fun a => (a.request_count, a.last_used)) =
      (pool.get_stats now₂).accounts.map
        (fun a => (a.request_count, a.last_used))) ∧
    (pool.get_stats now).healthy_accounts +
        (pool.get_stats now).unhealthy_accounts =
      (pool.get_stats now).total_accounts ∧
    (pool.get_stats now).healthy_accounts =
      (pool.accounts.filter
        (fun acc => pool.is_account_healthy now acc)).length := by
  refine ⟨?_, ?_, rfl⟩
  · simp [AccountPool.get_stats, List.map_map, Function.comp]
  · have hle :
        (pool.accounts.filter
          (fun acc => pool.is_account_healthy now acc)).length ≤
          pool.accounts.length :=
      List.length_filter_le _ _
    simp only [AccountPool.get_stats]
    omega

theorem gna_selects_healthy (pool : AccountPool) (now : Int) (pick : Nat)
    (p : Nat × AccountInfo) (t : List (Nat × AccountInfo))
    (hpt : healthyFrom pool now 0 pool.accounts = p :: t) :
    ∃ q ∈ p :: t, ∃ cur,
      pool.get_next_account now pick =
        (Except.ok q.2.auth_manager,
         { pool with
             accounts := pool.accounts.set q.1
               { q.2 with
                   request_count := q.2.request_count + 1
                   last_used := some now }
             current_index := cur }) := by
  by_cases h1 : pool.strategy = "round_robin"
  · exact ⟨_, getD_mem _ _ _ (by simp), _,
      gna_rr pool now pick p _ t hpt h1 rfl⟩
  · by_cases h2 : pool.strategy = "random"
    · exact ⟨_, getD_mem _ _ _ (by simp), _,
        gna_random pool now pick p _ t hpt h2 rfl⟩
    · by_cases h3 : pool.strategy = "least_used"
      · exact ⟨_, luFold_mem t p, _,
          gna_lu pool now pick p _ t hpt h3 rfl⟩
      · exact ⟨_, getD_mem _ _ _ (by simp), _,
          gna_fb pool now pick p _ t hpt h1 h2 h3 rfl⟩

/-- C1: whenever some account is healthy, `get_next_account` returns the
selected account's auth manager and changes exactly that record — its
`request_count` grows by one and its `last_used` becomes `now`, while its
other fields and every other record are untouched. When no account is
healthy it returns the pool-exhausted error and the pool state (cursor and
all metrics) is unchanged. -/
theorem c1_selection_effects (pool : AccountPool) (now : Int) (pick : Nat) :
    ((∃ a ∈ pool.accounts, pool.is_account_healthy now a = true) →
      ∃ i acc,
        pool.accounts[i]? = some acc ∧
        pool.is_account_healthy now acc = true ∧
        (pool.get_next_account now pick).1 = Except.ok acc.auth_manager ∧
        (pool.get_next_account now pick).2.accounts =
          pool.accounts.set i
            { acc with
                request_count := acc.request_count + 1
                last_used := some now } ∧
        (∀ j, j ≠ i →
          (pool.get_next_account now pick).2.accounts[j]? =
            pool.accounts[j]?)) ∧
    ((∀ a ∈ pool.accounts, pool.is_account_healthy now a = false) →
      (pool.get_next_account now pick).1 = Except.error poolExhaustedMsg ∧
      (pool.get_next_account now pick).2 = pool) := by
  constructor
  · rintro ⟨a, ha, hha⟩
    have hne : healthyFrom pool now 0 pool.accounts ≠ [] := by
      intro hnil
      have := (healthyFrom_nil_iff pool now pool.accounts 0).mp hnil a ha
      rw [hha] at this
      exact Bool.true_eq_false.mp this
    obtain ⟨p, t, hpt⟩ :
        ∃ p t, healthyFrom pool now 0 pool.accounts = p :: t := by
      cases h : healthyFrom pool now 0 pool.accounts with
      | nil => exact absurd h hne
      | cons p t => exact ⟨p, t, rfl⟩
    obtain ⟨q, hqmem, cur, heq⟩ :=
      gna_selects_healthy pool now pick p t hpt
    obtain ⟨k, hk, hget, hhq⟩ :=
      healthyFrom_mem pool now pool.accounts 0 q (hpt ▸ hqmem)
    have hidx : q.1 = k := by omega
    refine ⟨q.1, q.2, by rw [hidx]; exact hget, hhq, ?_, ?_, ?_⟩
    · rw [heq]
    · rw [heq]
    · intro j hj
      rw [heq]
      exact List.getElem?_set_ne (fun h => hj h.symm)
  · intro hall
    have hnil : healthyFrom pool now 0 pool.accounts = [] :=
      (healthyFrom_nil_iff pool now pool.accounts 0).mpr hall
    rw [gna_empty pool now pick hnil]
    exact ⟨rfl, rfl⟩

/-- Closed instance of C1: both branches at concrete pools — the empty pool
is exhausted and unchanged, and the one-account pool has its single record
selected and bumped. -/
theorem c1_selection_effects_witness :
    ((∀ a ∈ poolEmpty.accounts,
        poolEmpty.is_account_healthy 0 a = false) ∧
      (poolEmpty.get_next_account 0 0).1 = Except.error poolExhaustedMsg ∧
      (poolEmpty.get_next_account 0 0).2 = poolEmpty) ∧
    ((∃ a ∈ pool1.accounts, pool1.is_account_healthy 5 a = true) ∧
      ∃ i acc,
        pool1.accounts[i]? = some acc ∧
        pool1.is_account_healthy 5 acc = true ∧
        (pool1.get_next_account 5 0).1 = Except.ok acc.auth_manager ∧
        (pool1.get_next_account 5 0).2.accounts =
          pool1.accounts.set i
            { acc with
                request_count := acc.request_count + 1
                last_used := some 5 } ∧
        (∀ j, j ≠ i →
          (pool1.get_next_account 5 0).2.accounts[j]? =
            pool1.accounts[j]?)) :=
  ⟨⟨by decide,
    (c1_selection_effects poolEmpty 0 0).2 (by decide)⟩,
   ⟨by decide,
    (c1_selection_effects pool1 5 0).1 (by decide)⟩⟩

/-- C2: under `round_robin`, a successful selection returns the element of
the healthy list at position `current_index % len(healthy)` and increments
the shared cursor by one; concretely, a pool of three accounts healthy
throughout yields exactly `[account1, account2, account3]` twice over six
consecutive selections. -/
theorem c2_round_robin (pool : AccountPool) (now : Int) (pick : Nat) :
    (pool.strategy = "round_robin" →
      ∀ acc,
        (pool.accounts.filter
            (fun a => pool.is_account_healthy now a))[pool.current_index %
          (pool.accounts.filter
            (fun a => pool.is_account_healthy now a)).length]? = some acc →
        (pool.get_next_account now pick).1 = Except.ok acc.auth_manager ∧
        (pool.get_next_account now pick).2.current_index =
          pool.current_index + 1) ∧
    (runSelections pool3 0 6).1 =
      [Except.ok (mkMgr "kiro-account1.json"),
       Except.ok (mkMgr "kiro-account2.json"),
       Except.ok (mkMgr "kiro-account3.json"),
       Except.ok (mkMgr "kiro-account1.json"),
       Except.ok (mkMgr "kiro-account2.json"),
       Except.ok (mkMgr "kiro-account3.json")] := by
  constructor
  · intro hs acc hacc
    have hmap := healthyFrom_map_snd pool now pool.accounts 0
    obtain ⟨p, t, hpt⟩ :
        ∃ p t, healthyFrom pool now 0 pool.accounts = p :: t := by
      cases h : healthyFrom pool now 0 pool.accounts with
      | nil =>
          rw [h] at hmap
          rw [← hmap] at hacc
          simp at hacc
      | cons p t => exact ⟨p, t, rfl⟩
    rw [hpt] at hmap
    have hlen : (p :: t).length =
        (pool.accounts.filter
          (fun a => pool.is_account_healthy now a)).length := by
      rw [← hmap, List.length_map]
    set n := (p :: t).length with hn
    have hlt : pool.current_index % n < n :=
      Nat.mod_lt _ (by simp [hn])
    have hgetD :
        (p :: t).getD (pool.current_index % n) p =
          (p :: t).get ⟨pool.current_index % n, hlt⟩ := by
      rw [List.getD_eq_getElem?_getD, List.getElem?_eq_getElem hlt]
      rfl
    have hsnd :
        ((p :: t).get ⟨pool.current_index % n, hlt⟩).2 = acc := by
      have := List.getElem?_map Prod.snd (p :: t) (pool.current_index % n)
      rw [hmap] at this
      rw [← hlen] at hacc
      rw [hacc, List.getElem?_eq_getElem hlt] at this
      simpa using this.symm
    have heq := gna_rr pool now pick p
      ((p :: t).getD (pool.current_index % (p :: t).length) p) t hpt hs rfl
    rw [heq]
    constructor
    · rw [← hn, hgetD, hsnd]
    · rfl
  · rfl

/-- C6: under `least_used`, the selected account is a healthy account of
minimal `request_count`, ties resolving to the earliest position in
discovery order; concretely, with A at count 5 and B at count 2 the run
selects B three times, then the tie at 5 goes to A, then B again. -/
theorem c6_least_used (pool : AccountPool) (now : Int) (pick : Nat) :
    (pool.strategy = "least_used" →
      (∃ a ∈ pool.accounts, pool.is_account_healthy now a = true) →
      ∃ q ∈ healthyFrom pool now 0 pool.accounts,
        (pool.get_next_account now pick).1 = Except.ok q.2.auth_manager ∧
        (pool.get_next_account now pick).2.accounts =
          pool.accounts.set q.1
            { q.2 with
                request_count := q.2.request_count + 1
                last_used := some now } ∧
        (∀ r ∈ healthyFrom pool now 0 pool.accounts,
          q.2.request_count ≤ r.2.request_count) ∧
        (∀ r ∈ healthyFrom pool now 0 pool.accounts,
          r.2.request_count = q.2.request_count → q.1 ≤ r.1)) ∧
    (runSelections poolLU 0 5).1 =
      [Except.ok (mkMgr "kiro-acctB.json"),
       Except.ok (mkMgr "kiro-acctB.json"),
       Except.ok (mkMgr "kiro-acctB.json"),
       Except.ok (mkMgr "kiro-acctA.json"),
       Except.ok (mkMgr "kiro-acctB.json")] := by
  constructor
  · rintro hs ⟨a, ha, hha⟩
    obtain ⟨p, t, hpt⟩ :
        ∃ p t, healthyFrom pool now 0 pool.accounts = p :: t := by
      cases h : healthyFrom pool now 0 pool.accounts with
      | nil =>
          have := (healthyFrom_nil_iff pool now pool.accounts 0).mp h a ha
          rw [hha] at this
          exact absurd this (by simp)
      | cons p t => exact ⟨p, t, rfl⟩
    have heq := gna_lu pool now pick p (luFold t p) t hpt hs rfl
    refine ⟨luFold t p, hpt ▸ luFold_mem t p, ?_, ?_, ?_, ?_⟩
    · rw [heq]
    · rw [heq]
    · intro r hr
      rw [hpt] at hr
      rcases List.mem_cons.mp hr with h1 | h2
      · subst h1
        exact (luFold_spec t r).2.1
      · exact (luFold_spec t p).2.2 r h2
    · intro r hr hcount
      rw [hpt] at hr
      exact luFold_first t p (hpt ▸ healthyFrom_pairwise pool now
        pool.accounts 0) r hr hcount
  · rfl

/-- Closed instance of C6 at the A=5 / B=2 pool: the first selection picks
account B (position 1), the healthy account of minimal request count. -/
theorem c6_least_used_witness :
    (poolLU.strategy = "least_used" ∧
      (∃ a ∈ poolLU.accounts, poolLU.is_account_healthy 0 a = true)) ∧
    (∃ q ∈ healthyFrom poolLU 0 0 poolLU.accounts,
      (poolLU.get_next_account 0 0).1 = Except.ok q.2.auth_manager ∧
      (poolLU.get_next_account 0 0).2.accounts =
        poolLU.accounts.set q.1
          { q.2 with
              request_count := q.2.request_count + 1
              last_used := some 0 } ∧
      (∀ r ∈ healthyFrom poolLU 0 0 poolLU.accounts,
        q.2.request_count ≤ r.2.request_count) ∧
      (∀ r ∈ healthyFrom poolLU 0 0 poolLU.accounts,
        r.2.request_count = q.2.request_count → q.1 ≤ r.1)) :=
  ⟨⟨rfl, by decide⟩, (c6_least_used poolLU 0 0).1 rfl (by decide)⟩

theorem is_account_healthy_strategy (pool : AccountPool) (s : String)
    (now : Int) (a : AccountInfo) :
    ({ pool with strategy := s } : AccountPool).is_account_healthy now a =
      pool.is_account_healthy now a := rfl

theorem healthyFrom_strategy (pool : AccountPool) (s : String) (now : Int) :
    ∀ (l : List AccountInfo) (i : Nat),
      healthyFrom { pool with strategy := s } now i l =
        healthyFrom pool now i l := by
  intro l
  induction l with
  | nil => intro i; rfl
  | cons a rest ih =>
      intro i
      simp only [healthyFrom, is_account_healthy_strategy, ih]

/-- C7: any unrecognized strategy string makes `get_next_account` behave
exactly like `round_robin` on the same pool state — same returned manager,
same metric update, same cursor increment — the updated pool differing
from the round-robin run only in retaining its own strategy string. -/
theorem c7_unrecognized_is_round_robin (pool : AccountPool) (now : Int)
    (pick : Nat) (h1 : pool.strategy ≠ "round_robin")
    (h2 : pool.strategy ≠ "random") (h3 : pool.strategy ≠ "least_used") :
    (pool.get_next_account now pick).1 =
      (({ pool with strategy := "round_robin" } :
          AccountPool).get_next_account now pick).1 ∧
    (pool.get_next_account now pick).2 =
      { (({ pool with strategy := "round_robin" } :
            AccountPool).get_next_account now pick).2 with
          strategy := pool.strategy } := by
  have hhf :
      healthyFrom { pool with strategy := "round_robin" } now 0
          pool.accounts =
        healthyFrom pool now 0 pool.accounts :=
    healthyFrom_strategy pool "round_robin" now pool.accounts 0
  cases hpt : healthyFrom pool now 0 pool.accounts with
  | nil =>
      rw [gna_empty pool now pick hpt,
        gna_empty { pool with strategy := "round_robin" } now pick
          (by rw [hhf]; exact hpt)]
      exact ⟨rfl, rfl⟩
  | cons p t =>
      rw [gna_fb pool now pick p _ t hpt h1 h2 h3 rfl,
        gna_rr { pool with strategy := "round_robin" } now pick p _ t
          (by rw [hhf]; exact hpt) rfl rfl]
      exact ⟨rfl, rfl⟩

/-- Closed instance of C7 at the strategy string `lru` (unrecognized): the
three-account pool behaves as under `round_robin`. -/
theorem c7_unrecognized_is_round_robin_witness :
    (({ pool3 with strategy := "lru" } : AccountPool).strategy ≠
        "round_robin" ∧
      ({ pool3 with strategy := "lru" } : AccountPool).strategy ≠
        "random" ∧
      ({ pool3 with strategy := "lru" } : AccountPool).strategy ≠
        "least_used") ∧
    ((({ pool3 with strategy := "lru" } :
          AccountPool).get_next_account 7 0).1 =
        (({ { pool3 with strategy := "lru" } with
              strategy := "round_robin" } :
            AccountPool).get_next_account 7 0).1 ∧
      (({ pool3 with strategy := "lru" } :
          AccountPool).get_next_account 7 0).2 =
        { (({ { pool3 with strategy := "lru" } with
                strategy := "round_robin" } :
              AccountPool).get_next_account 7 0).2 with
            strategy := ({ pool3 with strategy := "lru" } :
              AccountPool).strategy }) :=
  ⟨⟨by decide, by decide, by decide⟩,
    c7_unrecognized_is_round_robin { pool3 with strategy := "lru" } 7 0
      (by decide) (by decide) (by decide)⟩

theorem charsLe_cons_iff (c d : Char) (a b : List Char) :
    charsLe (c :: a) (d :: b) = true ↔
      (c.toNat < d.toNat ∨ (c.toNat = d.toNat ∧ charsLe a b = true)) := by
  simp only [charsLe]
  by_cases h1 : c.toNat < d.toNat
  · simp [h1]
  · by_cases h2 : d.toNat < c.toNat
    · simp only [if_neg h1, if_pos h2]
      constructor
      · intro h; exact absurd h (by simp)
      · intro h; exfalso; rcases h with h | ⟨h, -⟩ <;> omega
    · have hcd : c.toNat = d.toNat := by omega
      simp [h1, h2, hcd]

theorem charsLe_total : ∀ a b : List Char,
    charsLe a b = true ∨ charsLe b a = true := by
  intro a
  induction a with
  | nil => intro b; left; rfl
  | cons c a ih =>
      intro b
      cases b with
      | nil => right; rfl
      | cons d b' =>
          rw [charsLe_cons_iff, charsLe_cons_iff]
          rcases Nat.lt_trichotomy c.toNat d.toNat with h | h | h
          · left; left; exact h
          · rcases ih b' with h' | h'
            · exact Or.inl (Or.inr ⟨h, h'⟩)
            · exact Or.inr (Or.inr ⟨h.symm, h'⟩)
          · right; left; exact h

theorem charsLe_trans : ∀ a b c : List Char,
    charsLe a b = true → charsLe b c = true → charsLe a c = true := by
  intro a
  induction a with
  | nil => intro b c _ _; rfl
  | cons x a ih =>
      intro b c hab hbc
      cases b with
      | nil => exact absurd hab (by simp [charsLe])
      | cons y b' =>
          cases c with
          | nil => exact absurd hbc (by simp [charsLe])
          | cons z c' =>
              rw [charsLe_cons_iff] at hab hbc ⊢
              rcases hab with h | ⟨he, hr⟩
              · rcases hbc with h' | ⟨he', -⟩
                · left; omega
                · left; omega
              · rcases hbc with h' | ⟨he', hr'⟩
                · left; omega
                · exact Or.inr ⟨by omega, ih b' c' hr hr'⟩

theorem charsLe_antisymm : ∀ a b : List Char,
    charsLe a b = true → charsLe b a = true → a = b := by
  intro a
  induction a with
  | nil =>
      intro b hab hba
      cases b with
      | nil => rfl
      | cons d b' => exact absurd hba (by simp [charsLe])
  | cons c a ih =>
      intro b hab hba
      cases b with
      | nil => exact absurd hab (by simp [charsLe])
      | cons d b' =>
          rw [charsLe_cons_iff] at hab hba
          rcases hab with h | ⟨he, hr⟩
          · exfalso; rcases hba with h' | ⟨he', -⟩ <;> omega
          · rcases hba with h' | ⟨he', hr'⟩
            · exfalso; omega
            · have hc : c = d := Char.eq_of_val_eq (UInt32.ext he)
              rw [hc, ih b' hr hr']

theorem strLe_total (a b : String) : strLe a b = true ∨ strLe b a = true :=
  charsLe_total a.data b.data

theorem strLe_trans (a b c : String) (hab : strLe a b = true)
    (hbc : strLe b c = true) : strLe a c = true :=
  charsLe_trans a.data b.data c.data hab hbc

theorem strLe_antisymm (a b : String) (hab : strLe a b = true)
    (hba : strLe b a = true) : a = b := by
  have h := charsLe_antisymm a.data b.data hab hba
  cases a; cases b; simp only at h; rw [h]

theorem insertFile_perm (f : String) :
    ∀ l : List String, (insertFile f l).Perm (f :: l) := by
  intro l
  induction l with
  | nil => exact List.Perm.refl _
  | cons g rest ih =>
      by_cases h : strLe f g
      · rw [insertFile, if_pos h]
      · rw [insertFile, if_neg h]
        exact (ih.cons g).trans (List.Perm.swap f g rest)

theorem sortFiles_perm : ∀ files : List String,
    (sortFiles files).Perm files := by
  intro files
  induction files with
  | nil => exact List.Perm.refl _
  | cons f rest ih =>
      rw [sortFiles]
      exact (insertFile_perm f (sortFiles rest)).trans (ih.cons f)

theorem insertFile_sorted (f : String) :
    ∀ l : List String, List.Sorted (fun a b => strLe a b = true) l →
      List.Sorted (fun a b => strLe a b = true) (insertFile f l) := by
  intro l
  induction l with
  | nil => intro _; simp [insertFile]
  | cons g rest ih =>
      intro hs
      rw [List.sorted_cons] at hs
      obtain ⟨hg, hrest⟩ := hs
      by_cases h : strLe f g
      · rw [insertFile, if_pos h, List.sorted_cons]
        refine ⟨?_, List.sorted_cons.mpr ⟨hg, hrest⟩⟩
        intro b hb
        rcases List.mem_cons.mp hb with h1 | h2
        · rw [h1]; exact h
        · exact strLe_trans f g b h (hg b h2)
      · rw [insertFile, if_neg h, List.sorted_cons]
        refine ⟨?_, ih hrest⟩
        intro b hb
        have hb' : b ∈ f :: rest := (insertFile_perm f rest).mem_iff.mp hb
        rcases List.mem_cons.mp hb' with h1 | h2
        · rw [h1]
          rcases strLe_total f g with ht | ht
          · exact absurd ht h
          · exact ht
        · exact hg b h2

theorem sortFiles_sorted : ∀ files : List String,
    List.Sorted (fun a b => strLe a b = true) (sortFiles files) := by
  intro files
  induction files with
  | nil => simp [sortFiles]
  | cons f rest ih =>
      rw [sortFiles]
      exact insertFile_sorted f (sortFiles rest) ih

theorem sortFiles_congr {f₁ f₂ : List String} (h : f₁.Perm f₂) :
    sortFiles f₁ = sortFiles f₂ :=
  @List.eq_of_perm_of_sorted String (fun a b => strLe a b = true)
    ⟨strLe_antisymm⟩ _ _
    (((sortFiles_perm f₁).trans h).trans (sortFiles_perm f₂).symm)
    (sortFiles_sorted f₁) (sortFiles_sorted f₂)

theorem loadFile_shape (validate : String → Option KiroAuthManager) :
    ∀ (l : List String), (∀ f ∈ l, (validate f).isSome = true) →
      (l.filterMap (loadFile validate)).map AccountInfo.file_path = l ∧
      ∀ a ∈ l.filterMap (loadFile validate),
        a.name = fileStem a.file_path := by
  intro l
  induction l with
  | nil => intro _; simp
  | cons f rest ih =>
      intro hall
      obtain ⟨mgr, hm⟩ := Option.isSome_iff_exists.mp (hall f (by simp))
      obtain ⟨ihmap, ihname⟩ := ih (fun g hg => hall g (by simp [hg]))
      have hcons : (f :: rest).filterMap (loadFile validate) =
          mkAccountInfo (fileStem f) mgr f ::
            rest.filterMap (loadFile validate) := by
        rw [List.filterMap_cons]
        simp [loadFile, hm]
      rw [hcons]
      constructor
      · simp [mkAccountInfo, ihmap]
      · intro a ha
        rcases List.mem_cons.mp ha with h1 | h2
        · rw [h1]; simp [mkAccountInfo]
        · exact ihname a h2

theorem loadFile_length (validate : String → Option KiroAuthManager) :
    ∀ (l : List String),
      (l.filterMap (loadFile validate)).length =
        (l.filter (fun f => (validate f).isSome)).length := by
  intro l
  induction l with
  | nil => simp
  | cons f rest ih =>
      rw [List.filterMap_cons]
      cases hm : validate f with
      | none => simp [loadFile, hm, ih]
      | some mgr => simp [loadFile, hm, ih]

theorem initAccounts_eval (pool : AccountPool) (files : List String)
    (validate : String → Option KiroAuthManager)
    (hmatch : ∀ f ∈ files, matchesGlob f = true) (hne : files ≠ []) :
    pool.initAccounts true files validate =
      (if ((sortFiles files).filterMap (loadFile validate)).length = 0 then
        Except.error noValidAccountsMsg
      else
        Except.ok
          (((sortFiles files).filterMap (loadFile validate)).length,
           { pool with
               accounts := pool.accounts ++
                 (sortFiles files).filterMap (loadFile validate) })) := by
  unfold AccountPool.initAccounts
  rw [List.filter_eq_self.mpr hmatch]
  simp only [Bool.not_true, Bool.false_eq_true, if_false,
    List.isEmpty_eq_false.mpr hne]
  rfl

/-- C4: for a directory listing of matching, all-valid credential files,
`initialize()` on a fresh pool returns the file count, the accounts list has
that length, its file paths are the lexicographically sorted listing (hence
independent of the order the filesystem returned), and each account name is
its file's stem. -/
theorem c4_init_discovery (dir strat : String) (thr : Int)
    (files : List String) (validate : String → Option KiroAuthManager)
    (hne : files ≠ [])
    (hmatch : ∀ f ∈ files, matchesGlob f = true)
    (hvalid : ∀ f ∈ files, (validate f).isSome = true) :
    ∃ pool',
      (mkAccountPool dir strat thr).initAccounts true files validate =
        Except.ok (files.length, pool') ∧
      pool'.accounts.length = files.length ∧
      pool'.accounts.map AccountInfo.file_path = sortFiles files ∧
      List.Sorted (fun a b => strLe a b = true)
        (pool'.accounts.map AccountInfo.file_path) ∧
      (∀ a ∈ pool'.accounts, a.name = fileStem a.file_path) ∧
      (∀ files₂, files.Perm files₂ →
        (mkAccountPool dir strat thr).initAccounts true files₂ validate =
          (mkAccountPool dir strat thr).initAccounts true files
            validate) := by
  have hvs : ∀ f ∈ sortFiles files, (validate f).isSome = true :=
    fun f hf => hvalid f ((sortFiles_perm files).mem_iff.mp hf)
  obtain ⟨hmap, hname⟩ := loadFile_shape validate (sortFiles files) hvs
  have hlen :
      ((sortFiles files).filterMap (loadFile validate)).length =
        files.length := by
    have h := congrArg List.length hmap
    rw [List.length_map] at h
    rw [h, (sortFiles_perm files).length_eq]
  have hlen0 :
      ¬ ((sortFiles files).filterMap (loadFile validate)).length = 0 := by
    rw [hlen]
    intro h0
    exact hne (List.length_eq_zero.mp h0)
  rw [initAccounts_eval _ files validate hmatch hne, if_neg hlen0, hlen]
  refine ⟨_, rfl, ?_, ?_, ?_, ?_, ?_⟩
  · simpa [mkAccountPool] using hlen
  · simpa [mkAccountPool] using hmap
  · have hsorted := sortFiles_sorted files
    rw [← hmap] at hsorted
    simpa [mkAccountPool] using hsorted
  · intro a ha
    refine hname a ?_
    simpa [mkAccountPool] using ha
  · intro files₂ hperm
    have hne₂ : files₂ ≠ [] := by
      intro h0
      rw [h0] at hperm
      exact hne (List.Perm.eq_nil hperm)
    have hmatch₂ : ∀ f ∈ files₂, matchesGlob f = true :=
      fun f hf => hmatch f (hperm.mem_iff.mpr hf)
    rw [initAccounts_eval _ files₂ validate hmatch₂ hne₂,
      sortFiles_congr hperm.symm, if_neg hlen0, hlen]

/-- Closed instance of C4: two matching valid files given in reverse
lexicographic order load as two accounts in sorted order. -/
theorem c4_init_discovery_witness :
    ((["kiro-b.json", "kiro-a.json"] : List String) ≠ [] ∧
      (∀ f ∈ (["kiro-b.json", "kiro-a.json"] : List String),
        matchesGlob f = true) ∧
      (∀ f ∈ (["kiro-b.json", "kiro-a.json"] : List String),
        ((fun g => some (mkMgr g)) f : Option KiroAuthManager).isSome =
          true)) ∧
    ∃ pool',
      (mkAccountPool "accounts" "round_robin" 300).initAccounts true
          ["kiro-b.json", "kiro-a.json"] (fun g => some (mkMgr g)) =
        Except.ok ((["kiro-b.json", "kiro-a.json"] : List String).length,
          pool') ∧
      pool'.accounts.length =
        (["kiro-b.json", "kiro-a.json"] : List String).length ∧
      pool'.accounts.map AccountInfo.file_path =
        sortFiles ["kiro-b.json", "kiro-a.json"] ∧
      List.Sorted (fun a b => strLe a b = true)
        (pool'.accounts.map AccountInfo.file_path) ∧
      (∀ a ∈ pool'.accounts, a.name = fileStem a.file_path) ∧
      (∀ files₂,
        (["kiro-b.json", "kiro-a.json"] : List String).Perm files₂ →
        (mkAccountPool "accounts" "round_robin" 300).initAccounts true
            files₂ (fun g => some (mkMgr g)) =
          (mkAccountPool "accounts" "round_robin" 300).initAccounts true
            ["kiro-b.json", "kiro-a.json"] (fun g => some (mkMgr g))) :=
  ⟨⟨by decide, by decide, by decide⟩,
    c4_init_discovery "accounts" "round_robin" 300
      ["kiro-b.json", "kiro-a.json"] (fun g => some (mkMgr g))
      (by decide) (by decide) (by decide)⟩

/-- C5: `initialize()` fails in exactly three cases — missing directory,
zero files matching `kiro-*.json` (with a message beginning
`No credential files found`), and no matched file validating — and in every
remaining case it succeeds, loading exactly the matched files that
validate (files failing validation are skipped, the rest still load). -/
theorem c5_init_error_cases (pool : AccountPool) (dirExists : Bool)
    (files : List String) (validate : String → Option KiroAuthManager) :
    (dirExists = false →
      pool.initAccounts dirExists files validate =
        Except.error (dirMissingMsg pool.accounts_dir)) ∧
    (files.filter matchesGlob = [] →
      pool.initAccounts true files validate =
        Except.error (noCredsMsg pool.accounts_dir) ∧
      ∃ rest, noCredsMsg pool.accounts_dir =
        "No credential files found" ++ rest) ∧
    (files.filter matchesGlob ≠ [] →
      (∀ f ∈ files.filter matchesGlob, validate f = none) →
      pool.initAccounts true files validate =
        Except.error noValidAccountsMsg) ∧
    (files.filter matchesGlob ≠ [] →
      (∃ f ∈ files.filter matchesGlob, (validate f).isSome = true) →
      pool.initAccounts true files validate =
        Except.ok
          (((files.filter matchesGlob).filter
              (fun f => (validate f).isSome)).length,
           { pool with
               accounts := pool.accounts ++
                 (sortFiles (files.filter matchesGlob)).filterMap
                   (loadFile validate) })) := by
  refine ⟨?_, ?_, ?_, ?_⟩
  · intro h
    subst h
    rfl
  · intro hfilter
    constructor
    · unfold AccountPool.initAccounts
      rw [hfilter]
      rfl
    · refine ⟨" matching pattern kiro-*.json in directory: " ++
        pool.accounts_dir, ?_⟩
      unfold noCredsMsg
      rw [← String.append_assoc]
      rfl
  · intro hne hnone
    have hloaded :
        (sortFiles (files.filter matchesGlob)).filterMap
          (loadFile validate) = [] := by
      rw [List.filterMap_eq_nil_iff]
      intro f hf
      have hfm : f ∈ files.filter matchesGlob :=
        (sortFiles_perm (files.filter matchesGlob)).mem_iff.mp hf
      rw [loadFile, hnone f hfm]
      rfl
    unfold AccountPool.initAccounts
    simp only [Bool.not_true, Bool.false_eq_true, if_false,
      List.isEmpty_eq_false.mpr hne]
    have : (files.filter matchesGlob |> sortFiles).filterMap
        (fun f => (validate f).map
          (fun mgr => mkAccountInfo (fileStem f) mgr f)) = [] := hloaded
    rw [this]
    rfl
  · rintro hne ⟨f, hfm, hfs⟩
    have hlen :
        ((sortFiles (files.filter matchesGlob)).filterMap
          (loadFile validate)).length =
          ((files.filter matchesGlob).filter
            (fun g => (validate g).isSome)).length := by
      rw [loadFile_length validate (sortFiles (files.filter matchesGlob))]
      exact ((sortFiles_perm (files.filter matchesGlob)).filter
        (fun g => (validate g).isSome)).length_eq
    have hmem :
        ∃ a, a ∈ (sortFiles (files.filter matchesGlob)).filterMap
          (loadFile validate) := by
      obtain ⟨mgr, hmgr⟩ := Option.isSome_iff_exists.mp hfs
      refine ⟨mkAccountInfo (fileStem f) mgr f, ?_⟩
      rw [List.mem_filterMap]
      exact ⟨f, (sortFiles_perm (files.filter matchesGlob)).mem_iff.mpr hfm,
        by rw [loadFile, hmgr]; rfl⟩
    have hlen0 :
        ¬ ((sortFiles (files.filter matchesGlob)).filterMap
          (loadFile validate)).length = 0 := by
      obtain ⟨a, ha⟩ := hmem
      intro h0
      rw [List.length_eq_zero.mp h0] at ha
      simp at ha
    unfold AccountPool.initAccounts
    simp only [Bool.not_true, Bool.false_eq_true, if_false,
      List.isEmpty_eq_false.mpr hne]
    have hbody : (files.filter matchesGlob |> sortFiles).filterMap
        (fun g => (validate g).map
          (fun mgr => mkAccountInfo (fileStem g) mgr g)) =
        (sortFiles (files.filter matchesGlob)).filterMap
          (loadFile validate) := rfl
    rw [hbody, if_neg hlen0, hlen]

/-- Closed instance of C5: one matching valid file alongside one matching
corrupt file — the corrupt one is skipped, the valid one still loads, and
the call succeeds with count 1. -/
theorem c5_init_error_cases_witness :
    ((["kiro-good.json", "kiro-bad.json"] : List String).filter
        matchesGlob ≠ [] ∧
      (∃ f ∈ (["kiro-good.json", "kiro-bad.json"] : List String).filter
          matchesGlob,
        ((fun g => if g = "kiro-good.json" then some (mkMgr g) else none)
            f : Option KiroAuthManager).isSome = true)) ∧
    poolEmpty.initAccounts true ["kiro-good.json", "kiro-bad.json"]
        (fun g => if g = "kiro-good.json" then some (mkMgr g) else none) =
      Except.ok
        ((((["kiro-good.json", "kiro-bad.json"] : List String).filter
            matchesGlob).filter
          (fun f => ((fun g => if g = "kiro-good.json" then some (mkMgr g)
            else none) f : Option KiroAuthManager).isSome)).length,
         { poolEmpty with
             accounts := poolEmpty.accounts ++
               (sortFiles ((["kiro-good.json", "kiro-bad.json"] :
                  List String).filter matchesGlob)).filterMap
                 (loadFile (fun g => if g = "kiro-good.json" then
                   some (mkMgr g) else none)) }) :=
  ⟨⟨by decide, by decide⟩,
    (c5_init_error_cases poolEmpty true ["kiro-good.json", "kiro-bad.json"]
      (fun g => if g = "kiro-good.json" then some (mkMgr g)
        else none)).2.2.2 (by decide) (by decide)⟩

/-- C10: a successful `initialize()` call appends to, rather than replaces,
the accounts already in the pool: the returned count K counts only this
call's loads, the accounts list afterwards has its previous length plus K,
and its prefix is the previous list unchanged — so re-initializing an
already-initialized pool duplicates accounts. -/
theorem c10_init_appends (pool : AccountPool) (dirExists : Bool)
    (files : List String) (validate : String → Option KiroAuthManager)
    (K : Nat) (pool' : AccountPool)
    (h : pool.initAccounts dirExists files validate = Except.ok (K, pool')) :
    pool'.accounts.length = pool.accounts.length + K ∧
    pool'.accounts.take pool.accounts.length = pool.accounts ∧
    K = ((files.filter matchesGlob).filter
      (fun f => (validate f).isSome)).length := by
  cases dirExists with
  | false => exact absurd h (by simp [AccountPool.initAccounts])
  | true =>
      unfold AccountPool.initAccounts at h
      simp only [Bool.not_true, Bool.false_eq_true, if_false] at h
      by_cases hme : (files.filter matchesGlob).isEmpty
      · rw [if_pos hme] at h
        exact absurd h (by simp)
      · rw [if_neg hme] at h
        by_cases hl : ((files.filter matchesGlob |> sortFiles).filterMap
            (fun f => (validate f).map
              (fun mgr => mkAccountInfo (fileStem f) mgr f))).length = 0
        · rw [if_pos hl] at h
          exact absurd h (by simp)
        · rw [if_neg hl] at h
          have hK : K = (List.filterMap
              (fun f => (validate f).map
                (fun mgr => mkAccountInfo (fileStem f) mgr f))
              (sortFiles (files.filter matchesGlob))).length := by
            have := (Except.ok.inj h)
            exact (congrArg Prod.fst this).symm
          have hpool : pool' =
              { pool with
                  accounts := pool.accounts ++
                    (files.filter matchesGlob |> sortFiles).filterMap
                      (fun f => (validate f).map
                        (fun mgr => mkAccountInfo (fileStem f) mgr f)) } := by
            have := (Except.ok.inj h)
            exact (congrArg Prod.snd this).symm
          have hlen2 : (List.filterMap
              (fun f => (validate f).map
                (fun mgr => mkAccountInfo (fileStem f) mgr f))
              (sortFiles (files.filter matchesGlob))).length =
              ((files.filter matchesGlob).filter
                (fun f => (validate f).isSome)).length := by
            have h1 : List.filterMap
                (fun f => (validate f).map
                  (fun mgr => mkAccountInfo (fileStem f) mgr f))
                (sortFiles (files.filter matchesGlob)) =
                (sortFiles (files.filter matchesGlob)).filterMap
                  (loadFile validate) := rfl
            rw [h1,
              loadFile_length validate (sortFiles (files.filter matchesGlob))]
            exact ((sortFiles_perm (files.filter matchesGlob)).filter
              (fun g => (validate g).isSome)).length_eq
          refine ⟨?_, ?_, by rw [hK, hlen2]⟩
          · rw [hpool, hK]
            simp
          · rw [hpool]
            simp

/-- Closed instance of C10: re-initializing a pool that already holds one
account appends the newly discovered account (length 1 + 1, old prefix
kept) while returning only this call's count, 1. -/
theorem c10_init_appends_witness :
    (pool1.initAccounts true ["kiro-b.json"] (fun g => some (mkMgr g)) =
      Except.ok (1,
        { pool1 with
            accounts := pool1.accounts ++
              [mkAccountInfo (fileStem "kiro-b.json") (mkMgr "kiro-b.json")
                "kiro-b.json"] })) ∧
    (({ pool1 with
          accounts := pool1.accounts ++
            [mkAccountInfo (fileStem "kiro-b.json") (mkMgr "kiro-b.json")
              "kiro-b.json"] } : AccountPool).accounts.length =
        pool1.accounts.length + 1 ∧
      ({ pool1 with
          accounts := pool1.accounts ++
            [mkAccountInfo (fileStem "kiro-b.json") (mkMgr "kiro-b.json")
              "kiro-b.json"] } : AccountPool).accounts.take
          pool1.accounts.length = pool1.accounts ∧
      1 = (((["kiro-b.json"] : List String).filter matchesGlob).filter
        (fun f => ((fun g => some (mkMgr g)) f :
          Option KiroAuthManager).isSome)).length) :=
  ⟨rfl,
    c10_init_appends pool1 true ["kiro-b.json"] (fun g => some (mkMgr g)) 1
      { pool1 with
          accounts := pool1.accounts ++
            [mkAccountInfo (fileStem "kiro-b.json") (mkMgr "kiro-b.json")
              "kiro-b.json"] }
      rfl⟩

theorem sfInit_eq_desc (R : Type) (K : Nat) : sfInit R K = sfDesc R K [] := by
  unfold sfInit sfDesc
  simp [List.map_const', List.length_range]

theorem sfDesc_callers_set (R : Type) (K c : Nat) (hc : c < K)
    (arrived : List Nat) :
    ((List.range K).map (fun x =>
        if x ∈ arrived then CallerSt.waiting (R := R)
        else CallerSt.idle)).set c CallerSt.waiting =
      (List.range K).map (fun x =>
        if x ∈ arrived ++ [c] then CallerSt.waiting else CallerSt.idle) := by
  apply List.ext_getElem?
  intro i
  rw [List.getElem?_set]
  by_cases hic : c = i
  · subst hic
    rw [if_pos rfl, List.length_map, List.length_range, if_pos hc,
      List.getElem?_map, List.getElem?_range hc]
    simp
  · rw [if_neg hic, List.getElem?_map, List.getElem?_map]
    by_cases hi : i < K
    · rw [List.getElem?_range hi]
      have hci : i ≠ c := fun h => hic h.symm
      simp only [Option.map_some']
      congr 1
      apply if_congr _ rfl rfl
      simp [List.mem_append, hci]
    · rw [List.getElem?_eq_none
        (by simp only [List.length_range]; omega)]
      rfl

theorem sfStep_arrive (R : Type) (K : Nat) (arrived : List Nat) (c : Nat)
    (hc : c < K) (hnot : c ∉ arrived) :
    sfStep (sfDesc R K arrived) (SFEvent.arrive c) =
      some (sfDesc R K (arrived ++ [c])) := by
  have hget : ((List.range K).map (fun x =>
      if x ∈ arrived then CallerSt.waiting (R := R)
      else CallerSt.idle))[c]? = some (CallerSt.idle (R := R)) := by
    rw [List.getElem?_map, List.getElem?_range hc]
    simp [hnot]
  have hset := sfDesc_callers_set R K c hc arrived
  cases arrived with
  | nil =>
      simp only [sfStep, sfDesc, List.isEmpty_nil, Bool.not_true,
        List.nil_append] at hget hset ⊢
      rw [hget]
      simp only [Bool.false_eq_true, if_false, Option.some.injEq]
      rw [hset]
      simp
  | cons a rest =>
      simp only [sfStep, sfDesc, List.isEmpty_cons, Bool.not_false,
        List.cons_append] at hget hset ⊢
      rw [hget]
      simp only [if_true, Option.some.injEq]
      rw [hset]

theorem sfStep_complete (R : Type) (K : Nat) (arrived : List Nat) (r : R)
    (hne : arrived ≠ []) :
    sfStep (sfDesc R K arrived) (SFEvent.complete r) =
      some { inflight := false
             refresh_calls := 1
             callers := (List.range K).map (fun c =>
               if c ∈ arrived then CallerSt.done r else CallerSt.idle) } := by
  cases arrived with
  | nil => exact absurd rfl hne
  | cons a rest =>
      simp only [sfStep, sfDesc, List.isEmpty_cons, Bool.not_false, if_true,
        Bool.false_eq_true, if_false, Option.some.injEq, List.map_map]
      congr 1
      apply List.map_congr_left
      intro x _
      by_cases hx : x ∈ a :: rest <;> simp [hx, Function.comp]

theorem sfRun_append {R : Type} :
    ∀ (es₁ es₂ : List (SFEvent R)) (s : SFState R),
      sfRun s (es₁ ++ es₂) =
        match sfRun s es₁ with
        | some s' => sfRun s' es₂
        | none => none := by
  intro es₁
  induction es₁ with
  | nil => intro es₂ s; rfl
  | cons e es ih =>
      intro es₂ s
      rw [List.cons_append]
      simp only [sfRun]
      cases h : sfStep s e with
      | none => rfl
      | some s' => exact ih es₂ s'

theorem sfRun_arrivals (R : Type) (K : Nat) :
    ∀ (rest arrived : List Nat), (∀ c ∈ rest, c < K) →
      (arrived ++ rest).Nodup →
      sfRun (sfDesc R K arrived) (rest.map SFEvent.arrive) =
        some (sfDesc R K (arrived ++ rest)) := by
  intro rest
  induction rest with
  | nil => intro arrived _ _; simp [sfRun]
  | cons c rest' ih =>
      intro arrived hlt hnd
      have hcnot : c ∉ arrived := by
        intro hca
        have hdisj := (List.nodup_append.mp hnd).2.2
        exact hdisj hca (by simp)
      have hnd' : ((arrived ++ [c]) ++ rest').Nodup := by
        rw [List.append_assoc]
        simpa using hnd
      have hstep := sfStep_arrive R K arrived c (hlt c (by simp)) hcnot
      have hrest := ih (arrived ++ [c])
        (fun d hd => hlt d (by simp [hd])) hnd'
      rw [List.map_cons]
      simp only [sfRun, hstep, hrest]
      rw [List.append_assoc]
      simp only [List.singleton_append]

/-- C9, modelled from the spec (the token lifecycle manager is not among
the provided sources): token refresh is single-flight per account. When `K`
callers all invoke `getAccessToken()` while a refresh is outstanding — in
any arrival order — exactly one refresh call is issued against the backend
token endpoint, and every caller ends with that single refresh's outcome
`r`, success or failure alike. -/
theorem c9_single_flight {R : Type} (K : Nat) (order : List Nat) (r : R)
    (hK : 0 < K) (hperm : order.Perm (List.range K)) :
    ∃ s', sfRun (sfInit R K)
        (order.map SFEvent.arrive ++ [SFEvent.complete r]) = some s' ∧
      s'.refresh_calls = 1 ∧
      ∀ c, c < K → s'.callers[c]? = some (CallerSt.done r) := by
  have hlt : ∀ c ∈ order, c < K := fun c hc =>
    List.mem_range.mp (hperm.mem_iff.mp hc)
  have hnd : order.Nodup := hperm.nodup_iff.mpr (List.nodup_range K)
  have hne : order ≠ [] := by
    intro h0
    rw [h0] at hperm
    have hlen := hperm.length_eq
    rw [List.length_range] at hlen
    simp at hlen
    omega
  have hrun := sfRun_arrivals R K order [] hlt (by simpa using hnd)
  simp only [List.nil_append] at hrun
  refine ⟨{ inflight := false
            refresh_calls := 1
            callers := (List.range K).map (fun c =>
              if c ∈ order then CallerSt.done r else CallerSt.idle) },
    ?_, rfl, ?_⟩
  · rw [sfRun_append, sfInit_eq_desc, hrun]
    simp only [sfRun, sfStep_complete R K order r hne]
  · intro c hc
    simp only
    rw [List.getElem?_map, List.getElem?_range hc]
    have hco : c ∈ order := hperm.mem_iff.mpr (List.mem_range.mpr hc)
    simp [hco]

/-- Closed instance of C9: two callers arriving in the order 1, 0 while the
refresh is outstanding — one refresh call in total, and both callers end
with its outcome. -/
theorem c9_single_flight_witness :
    (0 < 2 ∧ ([1, 0] : List Nat).Perm (List.range 2)) ∧
    ∃ s', sfRun (sfInit Bool 2)
        (([1, 0] : List Nat).map SFEvent.arrive ++
          [SFEvent.complete true]) = some s' ∧
      s'.refresh_calls = 1 ∧
      ∀ c, c < 2 → s'.callers[c]? = some (CallerSt.done true) :=
  ⟨⟨by decide, by decide⟩,
    c9_single_flight 2 [1, 0] true (by decide) (by decide)⟩

/-- Closed instance of C2: at the three-account pool the first selection
returns the healthy account at position `0 % 3` and advances the cursor. -/
theorem c2_round_robin_witness :
    (pool3.strategy = "round_robin" ∧
      (pool3.accounts.filter
          (fun a => pool3.is_account_healthy 0 a))[pool3.current_index %
        (pool3.accounts.filter
          (fun a => pool3.is_account_healthy 0 a)).length]? =
        some (mkAccountInfo "kiro-account1" (mkMgr "kiro-account1.json")
          "kiro-account1.json")) ∧
    ((pool3.get_next_account 0 0).1 =
        Except.ok (mkAccountInfo "kiro-account1"
          (mkMgr "kiro-account1.json") "kiro-account1.json").auth_manager ∧
      (pool3.get_next_account 0 0).2.current_index =
        pool3.current_index + 1) :=
  ⟨⟨rfl, by decide⟩,
    (c2_round_robin pool3 0 0).1 rfl
      (mkAccountInfo "kiro-account1" (mkMgr "kiro-account1.json")
        "kiro-account1.json") (by decide)⟩
